import Mathlib

/-!
# Verification of the legacy-portal migration engine (`src/bin.ts`)

A shallow embedding of the content-migration core of `src/bin.ts`:
the rename registry, the frontmatter processor, the markup transformer
(admonitions, embeds, titled code fences), the link rewriter, the
structural equality checker (`dequal`), and the navigation-tree
transformer (`migrateSidebars` / `transformSidebarItems`).

Strings are modelled as their character lists (the documents handled by
the tool are plain text; JS string indices coincide with characters for
this material).  JS regular-expression passes are embedded as explicit
left-to-right scanners with the exact backtracking behaviour of the
source patterns.  Recursive functions over nested data use an explicit
fuel argument (structural on the fuel, hence kernel-reducible); each
wrapper supplies fuel that is at least the recursion depth, so the
fuelled function never exhausts its fuel on the wrapper's argument.
-/

namespace Migrate

/-- Characters of a string (JS strings are indexed by code units; the
documents involved are ASCII, where these coincide with characters). -/
def strChars (s : String) : List Char := s.data

/-- Rebuild a string from characters. -/
def chStr (cs : List Char) : String := ⟨cs⟩

/-- JS `\w` character class: `[A-Za-z0-9_]`. -/
def isWordChar (c : Char) : Bool :=
  (('a' ≤ c) && (c ≤ 'z')) || (('A' ≤ c) && (c ≤ 'Z')) ||
  (('0' ≤ c) && (c ≤ '9')) || (c = '_')

/-- JS `\s` character class (ASCII part: space, tab, newline, carriage
return, vertical tab, form feed). -/
def isWsChar (c : Char) : Bool :=
  (c = ' ') || (c = '\t') || (c = '\n') || (c = '\r') ||
  (c = '\x0b') || (c = '\x0c')

/-- JS `.` (no `s` flag): any character except line terminators. -/
def isDotChar (c : Char) : Bool :=
  !((c = '\n') || (c = '\r'))

/-- JS `String.prototype.trim` (ASCII whitespace suffices here). -/
def trimChars (cs : List Char) : List Char :=
  ((cs.dropWhile (fun c => isWsChar c)).reverse.dropWhile
    (fun c => isWsChar c)).reverse

/-- ASCII lower-casing, as used by JS `toLowerCase` on this material. -/
def lcChar (c : Char) : Char :=
  if ('A' ≤ c) && (c ≤ 'Z') then Char.ofNat (c.toNat + 32) else c

def lcChars (cs : List Char) : List Char := cs.map lcChar

/-- Split a character list at every occurrence of the separator
character, like JS `String.prototype.split` with a one-character
separator: `"a#b#c" → [a, b, c]`, `"a" → [a]`, `"" → [""]`. -/
def splitOnChar (sep : Char) : List Char → List (List Char)
  | [] => [[]]
  | c :: cs =>
    let rest := splitOnChar sep cs
    if c = sep then [] :: rest
    else
      match rest with
      | [] => [[c]]
      | hd :: tl => (c :: hd) :: tl

/-- Interleave a separator character between segments (inverse of
`splitOnChar` on separator-free segments). -/
def joinWithChar (sep : Char) : List (List Char) → List Char
  | [] => []
  | [x] => x
  | x :: xs => x ++ sep :: joinWithChar sep xs

/-- First index (if any) at which `pat` occurs in `l` as a contiguous
sublist, like JS `String.prototype.indexOf`. -/
def firstIndexOfSub (pat : List Char) : List Char → Option Nat
  | [] => if pat = [] then some 0 else none
  | c :: cs =>
    if pat.isPrefixOf (c :: cs) then some 0
    else (firstIndexOfSub pat cs).map (· + 1)

/-- Whether `pat` occurs in `l` as a contiguous sublist. -/
def containsSub (pat l : List Char) : Bool :=
  (firstIndexOfSub pat l).isSome

/-- JS `String.prototype.replace` with a plain-string pattern: replaces
only the first occurrence (or none). -/
def replaceFirstSub (pat repl : List Char) (l : List Char) : List Char :=
  match firstIndexOfSub pat l with
  | none => l
  | some i => l.take i ++ repl ++ l.drop (i + pat.length)

/-- JS `String.prototype.replace(pat, repl)` for plain-string `pat`
(first occurrence only), on `String`. -/
def jsReplaceFirst (s pat repl : String) : String :=
  chStr (replaceFirstSub (strChars pat) (strChars repl) (strChars s))

/-- JS `String.prototype.endsWith`. -/
def endsWithS (s suffix : String) : Bool :=
  (strChars suffix).isSuffixOf (strChars s)

/-- JS `String.prototype.startsWith`. -/
def startsWithS (s pre : String) : Bool :=
  (strChars pre).isPrefixOf (strChars s)

/-- JS `String.prototype.includes`. -/
def includesS (s sub : String) : Bool :=
  containsSub (strChars sub) (strChars s)

/-- JS `String.prototype.slice(n)` for `0 ≤ n` (drop the first `n`
characters). -/
def jsSliceFrom (s : String) (n : Nat) : String :=
  chStr ((strChars s).drop n)

/-- Drop the last `n` elements of a list. -/
def dropLastN {α : Type} (l : List α) (n : Nat) : List α :=
  l.take (l.length - n)

/-- JS `String.prototype.slice(0, -n)` (drop the last `n` characters). -/
def jsSliceDropLast (s : String) (n : Nat) : String :=
  chStr (dropLastN (strChars s) n)

/-- JS `String.prototype.toLowerCase` (ASCII). -/
def toLowerS (s : String) : String := chStr (lcChars (strChars s))

/-!
## Node `path` (POSIX), with the process working directory fixed at the
repository root.

`migrate()` refuses to run unless invoked at the project root, so the
working directory is the repository root throughout; we model it as the
absolute root, writing absolute paths as `/`-prefixed strings whose
segment list is relative to that root.
-/

/-- Raw `/`-separated segments of a path string. -/
def pathSegsRaw (s : String) : List String :=
  (splitOnChar '/' (strChars s)).map chStr

/-- Resolve `.`, `..` and empty segments of an absolute path
(`..` above the root is dropped, as Node does). -/
def normAbsSegs (segs : List String) : List String :=
  segs.foldl
    (fun acc seg =>
      if seg = "" ∨ seg = "." then acc
      else if seg = ".." then acc.dropLast
      else acc ++ [seg])
    []

/-- Whether a path string is absolute. -/
def isAbsPath (s : String) : Bool := startsWithS s "/"

/-- Segment list (relative to the root) of a path resolved against the
working directory, i.e. Node `path.resolve(p)` at the repository root. -/
def toAbsSegs (p : String) : List String :=
  normAbsSegs (pathSegsRaw p)

/-- Print an absolute path from its root-relative segments. -/
def mkAbsPath (segs : List String) : String :=
  chStr ('/' :: joinWithChar '/' (segs.map strChars))

/-- Node `path.resolve(base, p)` with the working directory at the
repository root: an absolute `p` wins, otherwise `p` is resolved against
`base` (itself resolved against the working directory). -/
def pathResolve (base p : String) : String :=
  if isAbsPath p then mkAbsPath (toAbsSegs p)
  else mkAbsPath (normAbsSegs (pathSegsRaw base ++ pathSegsRaw p))

/-- Length of the longest common prefix of two segment lists. -/
def commonPrefixLen : List String → List String → Nat
  | a :: as, b :: bs => if a = b then 1 + commonPrefixLen as bs else 0
  | _, _ => 0

/-- Node `path.relative(from, to)` (POSIX, working directory at the
repository root): both arguments are resolved to absolute form, the
common prefix is stripped, and one `..` is emitted per remaining
segment of `from`. -/
def pathRelative (frm dst : String) : String :=
  let f := toAbsSegs frm
  let t := toAbsSegs dst
  let c := commonPrefixLen f t
  chStr (joinWithChar '/'
    ((List.replicate (f.length - c) ".." ++ t.drop c).map strChars))

/-- Normalize relative segments, keeping leading `..` segments that
cannot be popped (Node `path.normalize` on a relative path). -/
def normRelSegs (segs : List String) : List String :=
  segs.foldl
    (fun acc seg =>
      if seg = "" ∨ seg = "." then acc
      else if seg = ".." then
        match acc.getLast? with
        | some last => if last = ".." then acc ++ [".."] else acc.dropLast
        | none => [".."]
      else acc ++ [seg])
    []

/-- Node `path.normalize` (POSIX; trailing-slash preservation is not
modelled — no caller passes a trailing slash). -/
def pathNormalize (p : String) : String :=
  if isAbsPath p then mkAbsPath (toAbsSegs p)
  else
    let segs := normRelSegs (pathSegsRaw p)
    if segs.isEmpty then "." else chStr (joinWithChar '/' (segs.map strChars))

/-- Node `path.dirname` (POSIX) for the slash-free-tail paths used here:
everything before the last `/`, or `.` when there is no `/`. -/
def pathDirname (p : String) : String :=
  let segs := pathSegsRaw p
  if segs.length ≤ 1 then "."
  else chStr (joinWithChar '/' (segs.dropLast.map strChars))

/-- Node `path.join(a, b)` (POSIX): concatenate with a separator and
normalize. -/
def pathJoin2 (a b : String) : String :=
  pathNormalize (a ++ "/" ++ b)

/-!
## Rename Registry

`renamedFiles` is a plain JS object mapping a normalized original path
to the relocated path; entries are written by plain property assignment
(`renamedFiles[path.normalize(filePath)] = renamed`, bin.ts:342/352 and
bin.ts:607/622) and read by property access.  We model the object as an
association list without duplicate keys: assignment overwrites the value
of an existing key in place and otherwise appends.
-/

/-- One rename registry: JS object from original path to new path. -/
def Registry : Type := List (String × String)

/-- JS property assignment `obj[k] = v`: overwrite in place, else
append. -/
def jsAssign : List (String × String) → String → String → List (String × String)
  | [], k, v => [(k, v)]
  | (k2, v2) :: rest, k, v =>
    if k2 = k then (k2, v) :: rest else (k2, v2) :: jsAssign rest k v

/-- `renamedFiles[path.normalize(filePath)] = renamed` (bin.ts:342, 352,
607, 622). -/
def registerRename (reg : Registry) (filePath renamed : String) : Registry :=
  jsAssign reg (pathNormalize filePath) renamed

/-- JS property read `renamedFiles[k]` as an option. -/
def regFind (reg : Registry) (k : String) : Option String :=
  match reg.find? (fun p => p.1 = k) with
  | some p => some p.2
  | none => none

/-- The value of `renamedFiles[k]` when the read is truthy (JS: a
present, non-empty string). -/
def regTruthyVal (reg : Registry) (k : String) : Option String :=
  match regFind reg k with
  | some v => if v = "" then none else some v
  | none => none

/-!
## Slugification (`slug`, `slugRoute`, bin.ts:633-642)

`slug`: lower-case, collapse every run of characters outside `[a-z0-9]`
into a single `-`, then strip one leading and one trailing `-`
(the regex `/^-|-$/g`).  `slugRoute` applies `slug` per `/`-segment.
-/

def isLowerAlnum (c : Char) : Bool :=
  (('a' ≤ c) && (c ≤ 'z')) || (('0' ≤ c) && (c ≤ '9'))

/-- `replace(/[^a-z0-9]+/g, '-')` on an already lower-cased character
list (fuelled; fuel at least the list length always suffices since every
step consumes at least one character). -/
def collapseNonAlnumF : Nat → List Char → List Char
  | 0, l => l
  | _, [] => []
  | f + 1, c :: cs =>
    if isLowerAlnum c then c :: collapseNonAlnumF f cs
    else '-' :: collapseNonAlnumF f (cs.dropWhile (fun d => !isLowerAlnum d))

/-- `replace(/^-|-$/g, '')`: remove one leading and one trailing `-`. -/
def stripEdgeHyphens (l : List Char) : List Char :=
  let l1 := match l with
    | '-' :: rest => rest
    | other => other
  match l1.getLast? with
  | some c => if c = '-' then l1.dropLast else l1
  | none => l1

def slug (s : String) : String :=
  let low := lcChars (strChars s)
  chStr (stripEdgeHyphens (collapseNonAlnumF low.length low))

def slugRoute (s : String) : String :=
  chStr (joinWithChar '/'
    ((splitOnChar '/' (strChars s)).map (fun seg => strChars (slug (chStr seg)))))

/-!
## Regex replacement scanner

`String.prototype.replace` with a `g`-flagged regex scans the subject
left to right; at each position it attempts a match, emits the
replacement and resumes after the consumed span on success, and
otherwise moves one character forward.  None of the patterns of
bin.ts can match the empty string, so every match consumes at least one
character and fuel equal to the subject length suffices.
-/

def scanReplAux (tm : List Char → Option (List Char × Nat)) :
    Nat → List Char → List Char
  | 0, l => l
  | _ + 1, [] => []
  | fuel + 1, c :: cs =>
    match tm (c :: cs) with
    | some (repl, k) => repl ++ scanReplAux tm fuel ((c :: cs).drop k)
    | none => c :: scanReplAux tm fuel cs

def scanRepl (tm : List Char → Option (List Char × Nat)) (l : List Char) :
    List Char :=
  scanReplAux tm l.length l

/-- Try candidates in order, returning the first success. -/
def firstSome {α β : Type} : List α → (α → Option β) → Option β
  | [], _ => none
  | x :: xs, f =>
    match f x with
    | some y => some y
    | none => firstSome xs f

/-!
## Markup Transformer: admonition rewrite (bin.ts:97-103)

Pattern `/:::(\w+)(?: +(.+?)\n|\s*\n)([\s\S]+?)(:::|$)/g`, replaced via
the callback that trims the type, maps the legacy alias
`attention → info`, and guarantees the body ends with a newline.
-/

/-- The replacement callback of bin.ts:98-103.  A missing title group
reaches the template as JS `undefined` and is stringified to the literal
text `undefined`. -/
def admonitionTemplate (ty : String) (title : Option String) (text : String) :
    String :=
  let ty1 := chStr (trimChars (strChars ty))
  let ty2 := if ty1 = "attention" then "info" else ty1
  let text1 := if endsWithS text "\n" then text else text ++ "\n"
  let nm := match title with
    | some t => t
    | none => "undefined"
  "\x7b% admonition type=\"" ++ ty2 ++ "\" name=\"" ++ nm ++ "\" %\x7d\n" ++
    text1 ++ "\x7b% /admonition %\x7d"

/-- Backtracking candidates of the group `(?: +(.+?)\n|\s*\n)`, in the
order the JS engine tries them: first the ` +(.+?)\n` alternative with
the greedy run of spaces from longest to shortest (the lazy title
`(.+?)` before a literal `\n` is forced to the whole dot-run), then the
`\s*\n` alternative, where the greedy `\s*` backtracks one character at
a time, so the final `\n` is matched at each newline of the leading
whitespace run from the last to the first.  Each candidate is
(title group, characters consumed). -/
def admTitleCands (rest : List Char) : List (Option (List Char) × Nat) :=
  let m := (rest.takeWhile (fun c => c = ' ')).length
  let altA := (List.range m).filterMap (fun j =>
    let k := m - j
    let s2 := rest.drop k
    let t := s2.takeWhile (fun c => isDotChar c)
    if t ≠ [] ∧ (s2.drop t.length).head? = some '\n' then
      some (some t, k + t.length + 1)
    else none)
  let wsRun := rest.takeWhile (fun c => isWsChar c)
  let altB : List (Option (List Char) × Nat) :=
    (List.range wsRun.length).filterMap (fun j2 =>
      let j := wsRun.length - 1 - j2
      if wsRun.get? j = some '\n' then
        some ((none : Option (List Char)), j + 1)
      else none)
  altA ++ altB

/-- The lazy body group `([\s\S]+?)(:::|$)`: the shortest non-empty
prefix followed by `:::`, or the whole remainder at end of input.
Returns (body, characters consumed including a closing `:::`). -/
def admBody (rest : List Char) : Option (List Char × Nat) :=
  match firstIndexOfSub [':', ':', ':'] (rest.drop 1) with
  | some i => some (rest.take (i + 1), i + 1 + 3)
  | none => if rest = [] then none else some (rest, rest.length)

/-- One admonition match attempt at the current position. -/
def tryAdm (l : List Char) : Option (List Char × Nat) :=
  if [':', ':', ':'].isPrefixOf l then
    let afterColons := l.drop 3
    let w := afterColons.takeWhile (fun c => isWordChar c)
    if w = [] then none
    else
      let rest1 := afterColons.drop w.length
      firstSome (admTitleCands rest1) (fun cand =>
        match admBody (rest1.drop cand.2) with
        | some (body, bodyConsumed) =>
          some (strChars (admonitionTemplate (chStr w) (cand.1.map chStr)
                  (chStr body)),
                3 + w.length + cand.2 + bodyConsumed)
        | none => none)
  else none

def admonitionPass (s : String) : String :=
  chStr (scanRepl tryAdm (strChars s))

/-!
## Markup Transformer: embed rewrite (bin.ts:105-113)

Pattern `/<embed\s+src="(.*?)"\s+\/>/g` rewritten to
`{% partial file="..." /%}`.  The partial-folder side effect
(bin.ts:107-111) feeds the generated site configuration, not the
document text, and is not needed by any claim, so it is elided here.
-/

def embedTemplate (src : String) : String :=
  "\x7b% partial file=\"" ++ src ++ "\" /%\x7d"

/-- The lazy `(.*?)` of the embed pattern: starting from the characters
after `src="`, grow the source attribute (which may itself contain `"`)
until a `"` followed by `\s+\/>` is found; `.` never crosses a line
terminator.  Returns (src, characters consumed from after `src="`
through the closing `/>`). -/
def embedSrcScan (acc : List Char) : List Char → Option (List Char × Nat)
  | [] => none
  | c :: rest =>
    if c = '\x22' then
      let ws := rest.takeWhile (fun d => isWsChar d)
      if ws ≠ [] ∧ ['/', '>'].isPrefixOf (rest.drop ws.length) then
        some (acc, acc.length + 1 + ws.length + 2)
      else embedSrcScan (acc ++ [c]) rest
    else if isDotChar c then embedSrcScan (acc ++ [c]) rest
    else none

/-- One embed match attempt at the current position. -/
def tryEmbed (l : List Char) : Option (List Char × Nat) :=
  if ['<', 'e', 'm', 'b', 'e', 'd'].isPrefixOf l then
    let rest := l.drop 6
    let ws := rest.takeWhile (fun c => isWsChar c)
    if ws = [] then none
    else
      let rest2 := rest.drop ws.length
      if ['s', 'r', 'c', '=', '\x22'].isPrefixOf rest2 then
        match embedSrcScan [] (rest2.drop 5) with
        | some (src, k) =>
          some (strChars (embedTemplate (chStr src)), 6 + ws.length + 5 + k)
        | none => none
      else none
  else none

def embedPass (s : String) : String :=
  chStr (scanRepl tryEmbed (strChars s))

/-!
## Markup Transformer: titled code fence rewrite (bin.ts:115)

Pattern `/```(\w+)?\s+(.+)\n([\s\S]+?)```/g` with replacement
`'```$1 {% title="$2" %}\n$3```'`.  A non-participating language group
substitutes as the empty string.
-/

def fenceTemplate (lang title body : String) : String :=
  "```" ++ lang ++ " \x7b% title=\"" ++ title ++ "\" %\x7d\n" ++ body ++ "```"

/-- One titled-code-fence match attempt at the current position.  The
greedy `\s+` backtracks from its longest run so that the greedy title
`(.+)` (which may begin with residual non-newline whitespace) is
non-empty and ends at a literal `\n`; the lazy body then reaches to the
first closing triple backtick. -/
def tryFence (l : List Char) : Option (List Char × Nat) :=
  if ['\x60', '\x60', '\x60'].isPrefixOf l then
    let rest := l.drop 3
    let w := rest.takeWhile (fun c => isWordChar c)
    let rest1 := rest.drop w.length
    let m := (rest1.takeWhile (fun c => isWsChar c)).length
    firstSome (List.range m) (fun j =>
      let k := m - j
      let s2 := rest1.drop k
      let t := s2.takeWhile (fun c => isDotChar c)
      if t = [] then none
      else if (s2.drop t.length).head? = some '\n' then
        let s3 := s2.drop (t.length + 1)
        match firstIndexOfSub ['\x60', '\x60', '\x60'] (s3.drop 1) with
        | some i =>
          some (strChars (fenceTemplate (chStr w) (chStr t)
                  (chStr (s3.take (i + 1)))),
                3 + w.length + k + t.length + 1 + (i + 1) + 3)
        | none => none
      else none)
  else none

def fencePass (s : String) : String :=
  chStr (scanRepl tryFence (strChars s))

/-!
## Link Rewriter (bin.ts:128-157)

Pattern `/(\[[^\]]+\]\()([^)]+)(\))/g`; the callback splits off the
anchor, normalizes the destination to a root-relative path, rewrites a
registered rename relative to the document's directory, and otherwise
applies the legacy reference-docs heuristic.
-/

/-- The replacement callback of bin.ts:128-157, already applied to the
matched groups: `start` is `$1` (the `[label](` part), `lk` is `$2` (the
destination).  Returns the full replacement text. -/
def linkReplaceOne (reg : Registry) (filePath start lk : String) : String :=
  let parts := (splitOnChar '#' (strChars lk)).map chStr
  let fileLink := parts.headD ""
  let hashSuffix := match parts.get? 1 with
    | some h => if h = "" then "" else "#" ++ h
    | none => ""
  let relativeLink := pathRelative "."
    (if startsWithS fileLink "/" then jsSliceFrom fileLink 1
     else pathResolve (pathDirname filePath) fileLink)
  match regTruthyVal reg relativeLink with
  | some renamed =>
    start ++ pathRelative (pathDirname filePath) renamed ++ hashSuffix ++ ")"
  | none =>
    let isRefLink :=
      (reg.any (fun f =>
        endsWithS f.1 ".page.yaml" &&
        startsWithS lk ("/" ++ slugRoute (jsReplaceFirst f.1 ".page.yaml" "") ++ "/")))
      && includesS lk "/tag/"
    if isRefLink then start ++ toLowerS (jsReplaceFirst lk "/tag/" "/") ++ ")"
    else start ++ lk ++ ")"

/-- One inline-link match attempt at the current position. -/
def tryLink (reg : Registry) (fp : String) (l : List Char) :
    Option (List Char × Nat) :=
  match l with
  | [] => none
  | c :: rest =>
    if c = '[' then
      let t1 := rest.takeWhile (fun d => d != ']')
      if t1 = [] then none
      else
        match rest.drop t1.length with
        | ']' :: '(' :: rest2 =>
          let lk := rest2.takeWhile (fun d => d != ')')
          if lk = [] then none
          else if (rest2.drop lk.length).head? = some ')' then
            some (strChars (linkReplaceOne reg fp
                    (chStr ('[' :: t1 ++ [']', '('])) (chStr lk)),
                  1 + t1.length + 2 + lk.length + 1)
          else none
        | _ => none
    else none

def linkPass (reg : Registry) (fp : String) (s : String) : String :=
  chStr (scanRepl (tryLink reg fp) (strChars s))

/-!
## Parsed document values

The JS values flowing through the tool (parsed YAML/JSON trees) are
primitives, ordered sequences and keyed mappings.  `nan` stands for the
floating-point not-a-number value, the one primitive that is not equal
to itself under JS `===`; the remaining numerics of this material are
integral.
-/

inductive JValue where
  | null
  | bool (b : Bool)
  | num (n : Int)
  | nan
  | str (s : String)
  | arr (xs : List JValue)
  | obj (fields : List (String × JValue))

compile_inductive% JValue

/-- JS `===` on these values: value equality on primitives, `NaN`
unequal to everything including itself, and reference equality on
sequences and mappings — two separately parsed composites are never
reference-identical, so the embedding returns `false` for them (when the
two sides are in fact the same reference, the recursive structural
comparison below returns `true` anyway, so no behaviour is lost). -/
def jsEq : JValue → JValue → Bool
  | .null, .null => true
  | .bool a, .bool b => a == b
  | .num a, .num b => a == b
  | .str a, .str b => a == b
  | _, _ => false

/-- JS truthiness of a value. -/
def jsTruthy : JValue → Bool
  | .null => false
  | .bool b => b
  | .num n => n != 0
  | .nan => false
  | .str s => s != ""
  | .arr _ => true
  | .obj _ => true

/-- JS property read `obj[k]` on a parsed mapping. -/
def lookupJs (fields : List (String × JValue)) (k : String) : Option JValue :=
  match fields.find? (fun p => p.1 = k) with
  | some p => some p.2
  | none => none

/-- JS `delete obj[k]`. -/
def removeKey (fields : List (String × JValue)) (k : String) :
    List (String × JValue) :=
  fields.filter (fun p => p.1 != k)

/-- JS object-key stringification for the scalar shapes at hand. -/
def jvKeyStr : JValue → String
  | .str s => s
  | .num n => toString n
  | .bool b => if b then "true" else "false"
  | _ => ""

/-!
## Frontmatter Processor (bin.ts:705-730)

The block is located with
`/^---\r?\n([\s\S]+?)\r?\n---(?:\r?\n)+/`, tabs inside the block are
normalized to two spaces, and the block is parsed as a keyed mapping
(`yaml.load`, an external library, modelled below for the flat
scalar/flow-sequence mappings this development exercises).
-/

/-- Match `\r?\n` at the head of a list: number of characters consumed,
if any. -/
def matchNl : List Char → Option Nat
  | '\r' :: '\n' :: _ => some 2
  | '\n' :: _ => some 1
  | _ => none

/-- The greedy `(?:\r?\n)+` run length (0 when no unit matches). -/
def nlRun : List Char → Nat
  | '\r' :: '\n' :: rest => 2 + nlRun rest
  | '\n' :: rest => 1 + nlRun rest
  | _ => 0

/-- Lazy search for the close of the frontmatter block: grow the inner
group one character at a time until the current position starts
`\r?\n---` followed by at least one `\r?\n` unit (taken greedily).
Returns (inner group, characters consumed from the start of the inner
group through the trailing newline run). -/
def fmFindClose (pre : List Char) : List Char → Option (List Char × Nat)
  | [] => none
  | c :: rest =>
    match matchNl (c :: rest) with
    | some nl =>
      let after := (c :: rest).drop nl
      if ['-', '-', '-'].isPrefixOf after then
        let run := nlRun (after.drop 3)
        if run ≥ 1 then some (pre, pre.length + nl + 3 + run)
        else fmFindClose (pre ++ [c]) rest
      else fmFindClose (pre ++ [c]) rest
    | none => fmFindClose (pre ++ [c]) rest

/-- The anchored frontmatter pattern: returns the inner group and the
total matched length. -/
def fmMatch (l : List Char) : Option (List Char × Nat) :=
  if ['-', '-', '-'].isPrefixOf l then
    match matchNl (l.drop 3) with
    | some nl =>
      match l.drop (3 + nl) with
      | [] => none
      | c :: rest => (fmFindClose [c] rest).map (fun p => (p.1, 3 + nl + p.2))
    | none => none
  else none

/-- Integer value of a digit run. -/
def digitsToNat (l : List Char) : Nat :=
  l.foldl (fun n c => n * 10 + (c.toNat - 48)) 0

/-- Models `js-yaml` parsing (YAML 1.2 core schema) of the plain
scalars this development exercises: booleans, null, integers, everything
else a plain string. -/
def parseScalarAtom (raw : List Char) : JValue :=
  let t := trimChars raw
  let s := chStr t
  if s = "true" then .bool true
  else if s = "false" then .bool false
  else if s = "null" ∨ s = "~" ∨ s = "" then .null
  else if t.all (fun c => ('0' ≤ c) && (c ≤ '9')) then .num (digitsToNat t)
  else .str s

/-- As `parseScalarAtom`, plus one level of flow sequences
(`[a, b, c]`) of plain scalars, which is all the material uses. -/
def parseScalar (raw : List Char) : JValue :=
  let t := trimChars raw
  if t.head? = some '[' ∧ t.getLast? = some ']' then
    .arr ((splitOnChar ',' (t.drop 1).dropLast).map parseScalarAtom)
  else parseScalarAtom raw

/-- Models `js-yaml` loading of the flat keyed mappings this development
exercises (one `key: value` scalar entry per line); `js-yaml` is an
external library, not part of this repository. -/
def yamlLoadFlat (l : List Char) : List (String × JValue) :=
  (splitOnChar '\n' l).filterMap (fun line =>
    match firstIndexOfSub [':'] line with
    | some i =>
      some (chStr (trimChars (line.take i)), parseScalar (line.drop (i + 1)))
    | none => none)

/-- Result of `processFrontMatter`: the (possibly rewritten) mapping,
the `changed` flag, the matched block length, and the two side effects —
the entry added to the process-wide `fileRbacPermissions` map and the
paths pushed onto the process-wide `ignore` list. -/
structure PFMRes where
  frontmatter : Option (List (String × JValue))
  changed : Bool
  len : Option Nat
  rbacAdd : Option (String × JValue)
  ignoreAdd : List String

/-- `processFrontMatter` (bin.ts:705-730): no block means
`{frontmatter: null, changed: false}`; otherwise a truthy `permission`
key is recorded into the RBAC map and deleted (marking `changed`), a
truthy `redirectFrom` sequence is replaced by a `redirects` mapping from
each entry to an empty record (marking `changed`), and a truthy
`exclude` key appends the document path to the ignore list without
touching the mapping or the `changed` flag. -/
def processFrontMatter (content filePath : String) : PFMRes :=
  match fmMatch (strChars content) with
  | none =>
    { frontmatter := none, changed := false, len := none,
      rbacAdd := none, ignoreAdd := [] }
  | some (inner, totalLen) =>
    let yamlChars := inner.flatMap (fun c => if c = '\t' then [' ', ' '] else [c])
    let fm0 := yamlLoadFlat yamlChars
    let step1 :=
      match lookupJs fm0 "permission" with
      | some v =>
        if jsTruthy v then (removeKey fm0 "permission", true, some (filePath, v))
        else (fm0, false, (none : Option (String × JValue)))
      | none => (fm0, false, none)
    let fm1 := step1.1
    let step2 :=
      match lookupJs fm1 "redirectFrom" with
      | some v =>
        if jsTruthy v then
          match v with
          | .arr xs =>
            (removeKey fm1 "redirectFrom" ++
               [("redirects", JValue.obj (xs.map (fun x => (jvKeyStr x, JValue.obj []))))],
             true)
          | _ =>
            -- a truthy non-sequence `redirectFrom` would make the JS
            -- `reduce` call throw; YAML never produces one for the
            -- documents at hand, so this arm is unreachable
            (fm1, false)
        else (fm1, false)
      | none => (fm1, false)
    let fm2 := step2.1
    let ign :=
      match lookupJs fm2 "exclude" with
      | some v => if jsTruthy v then [filePath] else []
      | none => []
    { frontmatter := some fm2, changed := step1.2.1 || step2.2,
      len := some totalLen, rbacAdd := step1.2.2, ignoreAdd := ign }

/-- Models `js-yaml` dumping of a flat scalar mapping (`yaml.dump`,
external library): one `key: value` line per entry. -/
def yamlDumpScalar : JValue → String
  | .null => "null"
  | .bool b => if b then "true" else "false"
  | .num n => toString n
  | .nan => ".nan"
  | .str s => s
  | .arr _ => ""
  | .obj _ => ""

def yamlDumpFlat (fs : List (String × JValue)) : String :=
  fs.foldl (fun acc p => acc ++ p.1 ++ ": " ++ yamlDumpScalar p.2 ++ "\n") ""

/-!
## The per-document markdown pipeline (bin.ts:94-157)

The loop body of `migrateMarkdown` for one file: the three markup
rewrites, then the frontmatter rewrite and splice, then the link
rewriter; the file is written back only when the final text differs from
the original (bin.ts:159-161).
-/

def migrateMarkdownContent (reg : Registry) (filePath content : String) :
    String :=
  let c1 := admonitionPass content
  let c2 := embedPass c1
  let c3 := fencePass c2
  let r := processFrontMatter c3 filePath
  let c4 :=
    if r.changed then
      let fmList := r.frontmatter.getD []
      if fmList.length = 0 then jsSliceFrom c3 (r.len.getD 0)
      else "---\n" ++ yamlDumpFlat fmList ++ "---\n\n" ++
        jsSliceFrom c3 (r.len.getD 0)
    else c3
  linkPass reg filePath c4

/-!
## Structural Equality Checker (`dequal`, bin.ts:673-703)

The `Date` and `RegExp` branches of the source never fire on parsed
YAML trees (such values cannot occur there) and are omitted.  The array
branch checks the lengths and then compares pairwise; the plain-object
branch walks the first object's own keys, requires each to be present in
the second with a recursively equal value, and finally requires the
second object to have exactly as many keys; everything else falls
through to `foo !== foo && bar !== bar`, which holds exactly for two
not-a-number values.  The function recurses on fuel; the auto-generated
`sizeOf` of the first argument strictly bounds the recursion depth, so
the wrapper's fuel is always sufficient.
-/

/-- JS `foo !== foo`, true exactly for `NaN`. -/
def isNanJ : JValue → Bool
  | .nan => true
  | _ => false

def dequalF : Nat → JValue → JValue → Bool
  | 0, _, _ => false
  | f + 1, foo, bar =>
    if jsEq foo bar then true
    else
      match foo, bar with
      | .arr xs, .arr ys =>
        (xs.length == ys.length) && (xs.zip ys).all (fun p => dequalF f p.1 p.2)
      | .obj fs, .obj gs =>
        (fs.all (fun kv =>
          match lookupJs gs kv.1 with
          | some w => dequalF f kv.2 w
          | none => false)) && (gs.length == fs.length)
      | a, b => isNanJ a && isNanJ b

/-- `dequal(foo, bar)` (bin.ts:673-703). -/
def dequal (foo bar : JValue) : Bool :=
  dequalF (sizeOf foo + 1) foo bar

/-!
## Navigation Tree Transformer (bin.ts:165-251)

A sidebar item as parsed from YAML; absent fields are `none` (the JS
object simply lacks the key).  `transformSidebarItems` maps over the
items, recursing into the legacy `pages` grouping, and resolves `page`
references through the rename registry, with the wildcard and
structured-page-collection (`.page.yaml`) special cases of
bin.ts:207-235.
-/

inductive SItem where
  | mk (label group page directory : Option String)
       (pages items : Option (List SItem)) : SItem

compile_inductive% SItem

def SItem.label : SItem → Option String
  | .mk l _ _ _ _ _ => l

def SItem.group : SItem → Option String
  | .mk _ g _ _ _ _ => g

def SItem.page : SItem → Option String
  | .mk _ _ p _ _ _ => p

def SItem.directory : SItem → Option String
  | .mk _ _ _ d _ _ => d

def SItem.pages : SItem → Option (List SItem)
  | .mk _ _ _ _ ps _ => ps

def SItem.items : SItem → Option (List SItem)
  | .mk _ _ _ _ _ its => its

/-- JS `a || b` on optional strings (the empty string is falsy). -/
def jsOrStr (a b : Option String) : Option String :=
  match a with
  | some s => if s = "" then b else some s
  | none => b

/-- `path.relative('.', path.resolve(path.dirname(filePath),
item.page.replace('/*', '')))` (bin.ts:209, 226). -/
def pageYamlKey (filePath p : String) : String :=
  pathRelative "." (pathResolve (pathDirname filePath) (jsReplaceFirst p "/*" ""))

/-- `path.relative('.', path.resolve(path.dirname(filePath), item.page))`
(bin.ts:238, also the link rewriter's normalization for a relative
destination, bin.ts:131-134). -/
def resolvedKey (filePath p : String) : String :=
  pathRelative "." (pathResolve (pathDirname filePath) p)

/-- JS `Array.prototype.map` with a callback that may throw: the items
are processed left to right and the first exception aborts the whole
map. -/
def mapMExcept {α β : Type} (f : α → Except String β) :
    List α → Except String (List β)
  | [] => .ok []
  | a :: l =>
    match f a with
    | .error e => .error e
    | .ok b =>
      match mapMExcept f l with
      | .error e => .error e
      | .ok bs => .ok (b :: bs)

/-- `transformSidebarItems` (bin.ts:196-250), on fuel (structural in the
nesting depth; the wrapper below supplies fuel that always suffices).
A thrown `Error` is modelled as `Except.error` of its message. -/
def transformSidebarItemsF :
    Nat → Registry → String → List SItem → Except String (List SItem)
  | 0, _, _, _ => .error "out of fuel"
  | f + 1, reg, filePath, items =>
    mapMExcept (fun item =>
      match item.pages with
      | some ps =>
        match transformSidebarItemsF f reg filePath ps with
        | .error e => .error e
        | .ok children =>
          .ok (SItem.mk item.label item.group item.page item.directory
            none (some children))
      | none =>
        match item.page with
        | some p =>
          if endsWithS p "/*" then
            if endsWithS p ".page.yaml/*" then
              let key := pageYamlKey filePath p
              match regTruthyVal reg key with
              | some v =>
                .ok (SItem.mk item.label item.group
                  (some (pathRelative (pathDirname filePath) v))
                  item.directory item.pages item.items)
              | none => .error ("No renamed file found for " ++ key)
            else
              .ok (SItem.mk item.label item.group none
                (some (jsSliceDropLast p 2)) item.pages item.items)
          else if endsWithS p ".page.yaml" then
            let key := pageYamlKey filePath p
            match regTruthyVal reg key with
            | some v =>
              .ok (SItem.mk item.label (jsOrStr item.label item.group)
                (some (pathRelative (pathDirname filePath) v))
                item.directory item.pages item.items)
            | none => .error ("No renamed file found for " ++ key)
          else
            match regTruthyVal reg (resolvedKey filePath p) with
            | some v =>
              .ok (SItem.mk item.label item.group
                (some (pathRelative (pathDirname filePath) v))
                item.directory item.pages item.items)
            | none => .ok item
        | none => .ok item) items

/-- `transformSidebarItems(items, filePath)`: the auto-generated
`sizeOf` strictly decreases from a list to the `pages` list of any of
its items, so `sizeOf items + 1` units of fuel always cover the
recursion. -/
def transformSidebarItems (reg : Registry) (filePath : String)
    (items : List SItem) : Except String (List SItem) :=
  transformSidebarItemsF (sizeOf items + 1) reg filePath items

/-- The JS object underlying a sidebar item: only present fields exist
as keys.  (Fields explicitly overwritten with `undefined` by the object
spreads of the source are modelled as absent; `yaml.dump` skips them and
no gating comparison in this development depends on the difference.) -/
def optStrField (k : String) : Option String → List (String × JValue)
  | some s => [(k, .str s)]
  | none => []

def sitemToJF : Nat → SItem → JValue
  | 0, _ => .null
  | f + 1, .mk l g p d pgs its =>
    .obj (optStrField "label" l ++ optStrField "group" g ++
      optStrField "page" p ++ optStrField "directory" d ++
      (match pgs with
       | some xs => [("pages", JValue.arr (xs.map (sitemToJF f)))]
       | none => []) ++
      (match its with
       | some xs => [("items", JValue.arr (xs.map (sitemToJF f)))]
       | none => []))

def sitemsToJ (items : List SItem) : JValue :=
  .arr (items.map (sitemToJF (sizeOf items)))

/-- The `yaml.load` result of one sidebars file, as scrutinized by
bin.ts:174-177: `nonObj` is any load result failing
`typeof data === 'object' && data !== null`; an array is a single tree;
any other object is a keyed mapping of named trees. -/
inductive SidebarFile where
  | nonObj
  | arr (items : List SItem)
  | obj (entries : List (String × List SItem))

/-- The `Object.entries(data).forEach` loop of bin.ts:185-192: per named
tree, transform, and write `<slug-prefixed->sidebars.yaml` next to the
source file when the structural comparison reports a change.  Returns
the writes performed (path, dumped tree — the `yaml.dump` serialization
boundary is left structured) and the error that aborted the run, if
any. -/
def migrateSidebarObjEntries (reg : Registry) (filePath : String) :
    Nat → List (String × List SItem) →
    List (String × List SItem) × Option String
  | _, [] => ([], none)
  | idx, (key, data) :: rest =>
    match transformSidebarItems reg filePath data with
    | .error e => ([], some e)
    | .ok newData =>
      let newName := (if idx = 0 then "" else slug key ++ ".") ++ "sidebars.yaml"
      let w := if dequal (sitemsToJ data) (sitemsToJ newData) then []
        else [(pathJoin2 (pathDirname filePath) newName, newData)]
      let r := migrateSidebarObjEntries reg filePath (idx + 1) rest
      (w ++ r.1, r.2)

/-- `migrateSidebars` (bin.ts:165-194) over a pre-parsed listing of
sidebar files: a file whose load result is not a (non-null) object makes
the function `return` (bin.ts:175-177), ending the whole pass; a thrown
registry-miss error likewise aborts.  Returns the writes performed and
the aborting error, if any. -/
def migrateSidebars (reg : Registry) :
    List (String × SidebarFile) → List (String × List SItem) × Option String
  | [] => ([], none)
  | (_, .nonObj) :: _ => ([], none)
  | (filePath, .arr data) :: rest =>
    match transformSidebarItems reg filePath data with
    | .error e => ([], some e)
    | .ok newData =>
      let w := if dequal (sitemsToJ data) (sitemsToJ newData) then []
        else [(filePath, newData)]
      let r := migrateSidebars reg rest
      (w ++ r.1, r.2)
  | (filePath, .obj entries) :: rest =>
    let r1 := migrateSidebarObjEntries reg filePath 0 entries
    match r1.2 with
    | some e => (r1.1, some e)
    | none =>
      let r := migrateSidebars reg rest
      (r1.1 ++ r.1, r.2)

/-!
## Specification-side definitions for the structural equality claim

`WfJ` captures the invariant every JS value of this tool satisfies:
objects never carry a duplicate key (JS object keys are unique).
`SpecRel` renders the specification's description of structural
equality: sequences of the same length with pairwise-equal elements in
order; mappings with the same key set and pairwise-equal values
regardless of key order; primitives under identity equality except that
two not-a-number values count as equal.  The claim's theorem compares
`dequal` against this relation.
-/

inductive WfJ : JValue → Prop
  | null : WfJ .null
  | bool (b : Bool) : WfJ (.bool b)
  | num (n : Int) : WfJ (.num n)
  | nan : WfJ .nan
  | str (s : String) : WfJ (.str s)
  | arr {xs : List JValue} : (∀ x ∈ xs, WfJ x) → WfJ (.arr xs)
  | obj {fs : List (String × JValue)} :
      (fs.map Prod.fst).Nodup → (∀ kv ∈ fs, WfJ kv.2) → WfJ (.obj fs)

inductive SpecRel : JValue → JValue → Prop
  | prim {a b : JValue} : jsEq a b = true → SpecRel a b
  | nan : SpecRel .nan .nan
  | arr {xs ys : List JValue} :
      xs.length = ys.length →
      (∀ (i : Nat) (hx : i < xs.length) (hy : i < ys.length),
        SpecRel (xs.get ⟨i, hx⟩) (ys.get ⟨i, hy⟩)) →
      SpecRel (.arr xs) (.arr ys)
  | obj {fs gs : List (String × JValue)} :
      (∀ k, (lookupJs fs k).isSome ↔ (lookupJs gs k).isSome) →
      (∀ k v w, lookupJs fs k = some v → lookupJs gs k = some w → SpecRel v w) →
      SpecRel (.obj fs) (.obj gs)

/-!
# Theorems

## No-op lemmas for the scanners
-/

theorem chStr_strChars (s : String) : chStr (strChars s) = s := rfl

theorem scanReplAux_id (tm : List Char → Option (List Char × Nat)) :
    ∀ (fuel : Nat) (l : List Char), (∀ s, s <:+ l → tm s = none) →
      scanReplAux tm fuel l = l := by
  intro fuel
  induction fuel with
  | zero => intro l _; rfl
  | succ f ih =>
    intro l h
    cases l with
    | nil => rfl
    | cons c cs =>
      have h0 : tm (c :: cs) = none := h (c :: cs) (List.suffix_refl _)
      have h1 : scanReplAux tm f cs = cs :=
        ih cs (fun s hs => h s (hs.trans (List.suffix_cons c cs)))
      simp [scanReplAux, h0, h1]

theorem scanRepl_id (tm : List Char → Option (List Char × Nat))
    (l : List Char) (h : ∀ s, s <:+ l → tm s = none) : scanRepl tm l = l :=
  scanReplAux_id tm l.length l h

theorem isPrefixOf_true_iff {p l : List Char} :
    p.isPrefixOf l = true ↔ p <+: l :=
  List.isPrefixOf_iff_prefix

theorem pattern_miss_on_suffixes {pat l : List Char}
    (h : ¬ pat <:+: l) : ∀ s, s <:+ l → ¬ pat <+: s := by
  intro s hs hp
  obtain ⟨t, ht⟩ := hp
  obtain ⟨u, hu⟩ := hs
  exact h ⟨u, t, by rw [List.append_assoc, ht, hu]⟩

theorem tryAdm_none_of_miss {s : List Char}
    (h : ¬ [':', ':', ':'] <+: s) : tryAdm s = none := by
  unfold tryAdm
  rw [if_neg (fun hb => h (isPrefixOf_true_iff.mp hb))]

theorem tryEmbed_none_of_miss {s : List Char}
    (h : ¬ ['<', 'e', 'm', 'b', 'e', 'd'] <+: s) : tryEmbed s = none := by
  unfold tryEmbed
  rw [if_neg (fun hb => h (isPrefixOf_true_iff.mp hb))]

theorem tryFence_none_of_miss {s : List Char}
    (h : ¬ ['\x60', '\x60', '\x60'] <+: s) : tryFence s = none := by
  unfold tryFence
  rw [if_neg (fun hb => h (isPrefixOf_true_iff.mp hb))]

theorem tryLink_of_not_bracket {reg : Registry} {fp : String}
    {s : List Char} (h : '[' ∉ s) : tryLink reg fp s = none := by
  cases s with
  | nil => rfl
  | cons c cs =>
    have hc : ¬ c = '[' := fun he => h (he ▸ List.mem_cons_self c cs)
    simp [tryLink, hc]

theorem admonitionPass_id {s : String}
    (h : ¬ [':', ':', ':'] <:+: strChars s) : admonitionPass s = s := by
  unfold admonitionPass
  rw [scanRepl_id _ _
    (fun t ht => tryAdm_none_of_miss (pattern_miss_on_suffixes h t ht))]
  exact chStr_strChars s

theorem embedPass_id {s : String}
    (h : ¬ ['<', 'e', 'm', 'b', 'e', 'd'] <:+: strChars s) : embedPass s = s := by
  unfold embedPass
  rw [scanRepl_id _ _
    (fun t ht => tryEmbed_none_of_miss (pattern_miss_on_suffixes h t ht))]
  exact chStr_strChars s

theorem fencePass_id {s : String}
    (h : ¬ ['\x60', '\x60', '\x60'] <:+: strChars s) : fencePass s = s := by
  unfold fencePass
  rw [scanRepl_id _ _
    (fun t ht => tryFence_none_of_miss (pattern_miss_on_suffixes h t ht))]
  exact chStr_strChars s

theorem linkPass_id {reg : Registry} {fp : String} {s : String}
    (h : '[' ∉ strChars s) : linkPass reg fp s = s := by
  unfold linkPass
  rw [scanRepl_id _ _
    (fun t ht => tryLink_of_not_bracket (fun hm => h (ht.subset hm)))]
  exact chStr_strChars s

theorem processFrontMatter_of_no_block {content fp : String}
    (h : ¬ ['-', '-', '-'] <+: strChars content) :
    processFrontMatter content fp =
      { frontmatter := none, changed := false, len := none,
        rbacAdd := none, ignoreAdd := [] } := by
  have hm : fmMatch (strChars content) = none := by
    unfold fmMatch
    rw [if_neg (fun hb => h (isPrefixOf_true_iff.mp hb))]
  unfold processFrontMatter
  rw [hm]

/-!
## C1: idempotence of the markdown pipeline
-/

/-- C1 counterexample: the titled-code-fence rewrite matches its own
output, so running the per-document markdown migration a second time on
an already-migrated document changes it again (the title is wrapped in a
second `title` attribute); the full pipeline is not idempotent. -/
theorem c1_counterexample :
    migrateMarkdownContent [] "docs/sample.md"
        (migrateMarkdownContent [] "docs/sample.md"
          "```js request.js\nconst x = 1;\n```") ≠
      migrateMarkdownContent [] "docs/sample.md"
        "```js request.js\nconst x = 1;\n```" := by decide

/-- C1 as amended: the second pass over a migrated document is a no-op
only for documents whose text triggers none of the rewrites — no `:::`
admonition opener, no `<embed` tag, no triple-backtick fence, no leading
frontmatter delimiter and no inline-link opener; on such a document the
full per-document pipeline returns the text unchanged (so the second
pass writes nothing).  In general the pipeline is not idempotent: a
titled code fence is re-wrapped by the second pass
(`c1_counterexample`). -/
theorem c1_secondPassNoop (reg : Registry) (fp content : String)
    (hAdm : ¬ [':', ':', ':'] <:+: strChars content)
    (hEmb : ¬ ['<', 'e', 'm', 'b', 'e', 'd'] <:+: strChars content)
    (hFen : ¬ ['\x60', '\x60', '\x60'] <:+: strChars content)
    (hFm : ¬ ['-', '-', '-'] <+: strChars content)
    (hLk : '[' ∉ strChars content) :
    migrateMarkdownContent reg fp content = content := by
  unfold migrateMarkdownContent
  simp only [admonitionPass_id hAdm, embedPass_id hEmb, fencePass_id hFen,
    processFrontMatter_of_no_block hFm]
  exact linkPass_id hLk

theorem c1_secondPassNoop_witness :
    migrateMarkdownContent [] "docs/plain.md" "Nothing to rewrite here.\n" =
      "Nothing to rewrite here.\n" :=
  c1_secondPassNoop [] "docs/plain.md" "Nothing to rewrite here.\n"
    (by decide) (by decide) (by decide) (by decide) (by decide)

/-!
## C6: admonition rewriting
-/

theorem firstSome_eq_some {α β : Type} {xs : List α} {f : α → Option β}
    {y : β} (h : firstSome xs f = some y) : ∃ x, x ∈ xs ∧ f x = some y := by
  induction xs with
  | nil => exact Option.noConfusion h
  | cons a l ih =>
    unfold firstSome at h
    cases hfa : f a with
    | some b =>
      rw [hfa] at h
      injection h with hb
      exact ⟨a, List.mem_cons_self _ _, by rw [hfa, hb]⟩
    | none =>
      rw [hfa] at h
      obtain ⟨x, hx, hfx⟩ := ih h
      exact ⟨x, List.mem_cons_of_mem _ hx, hfx⟩

theorem strChars_append (a b : String) :
    strChars (a ++ b) = strChars a ++ strChars b := rfl

theorem startsWithS_append (a b : String) : startsWithS (a ++ b) a = true := by
  unfold startsWithS
  rw [strChars_append]
  exact isPrefixOf_true_iff.mpr (List.prefix_append _ _)

theorem endsWithS_append_self (a b : String) : endsWithS (a ++ b) b = true := by
  unfold endsWithS
  rw [strChars_append]
  exact List.isSuffixOf_iff_suffix.mpr (List.suffix_append _ _)

theorem strAppend_assoc (a b c : String) : a ++ b ++ c = a ++ (b ++ c) :=
  congrArg String.mk (List.append_assoc a.data b.data c.data)

/-- C6: for every admonition block matched anywhere in a document, the
transformer emits the target block-directive template; the template maps
the legacy alias `attention` to `info` and emits every other (trimmed)
type keyword unchanged in the `type` attribute; the emitted body always
ends with a newline immediately before the closing directive and is the
matched body text, with a newline appended exactly when it lacked one;
in particular `:::attention Title\nBody\n:::` becomes exactly
`{% admonition type="info" name="Title" %}\nBody\n{% /admonition %}`. -/
theorem c6_admonition_rewrite :
    (∀ (l repl : List Char) (k : Nat), tryAdm l = some (repl, k) →
      ∃ (ty : List Char) (title : Option (List Char)) (text : List Char),
        repl = strChars (admonitionTemplate (chStr ty) (title.map chStr)
          (chStr text))) ∧
    (∀ (t : Option String) (tx : String),
      admonitionTemplate "attention" t tx = admonitionTemplate "info" t tx) ∧
    (∀ (ty : String) (t : Option String) (tx : String),
      chStr (trimChars (strChars ty)) ≠ "attention" →
      startsWithS (admonitionTemplate ty t tx)
        ("\x7b% admonition type=\"" ++ chStr (trimChars (strChars ty)) ++
          "\" name=\"") = true) ∧
    (∀ (ty : String) (t : Option String) (tx : String),
      ∃ pre body : String, endsWithS body "\n" = true ∧
        (body = tx ∨ body = tx ++ "\n") ∧
        admonitionTemplate ty t tx = pre ++ body ++ "\x7b% /admonition %\x7d") ∧
    admonitionPass ":::attention Title\nBody\n:::" =
      "\x7b% admonition type=\"info\" name=\"Title\" %\x7d\nBody\n\x7b% /admonition %\x7d" ∧
    admonitionPass ":::danger T2\nBody:::" =
      "\x7b% admonition type=\"danger\" name=\"T2\" %\x7d\nBody\n\x7b% /admonition %\x7d" := by
  refine ⟨?_, fun t tx => rfl, ?_, ?_, by decide, by decide⟩
  · intro l repl k h
    unfold tryAdm at h
    by_cases hpre : [':', ':', ':'].isPrefixOf l = true
    · rw [if_pos hpre] at h
      simp only [] at h
      by_cases hw : (l.drop 3).takeWhile (fun c => isWordChar c) = []
      · rw [if_pos hw] at h
        exact Option.noConfusion h
      · rw [if_neg hw] at h
        obtain ⟨cand, _, hcand⟩ := firstSome_eq_some h
        split at hcand
        · injection hcand with hpair
          have h1 := congrArg Prod.fst hpair
          exact ⟨_, cand.1, _, h1.symm⟩
        · exact Option.noConfusion hcand
    · rw [if_neg hpre] at h
      exact Option.noConfusion h
  · intro ty t tx h
    have hsplit : admonitionTemplate ty t tx =
        ("\x7b% admonition type=\"" ++ chStr (trimChars (strChars ty)) ++
            "\" name=\"") ++
          ((match t with
            | some s => s
            | none => "undefined") ++
            ("\" %\x7d\n" ++
              ((if endsWithS tx "\n" = true then tx else tx ++ "\n") ++
                "\x7b% /admonition %\x7d"))) := by
      simp only [admonitionTemplate]
      rw [if_neg h]
      simp [strAppend_assoc]
    rw [hsplit]
    exact startsWithS_append _ _
  · intro ty t tx
    by_cases he : endsWithS tx "\n" = true
    · refine ⟨"\x7b% admonition type=\"" ++
        (if chStr (trimChars (strChars ty)) = "attention" then "info"
         else chStr (trimChars (strChars ty))) ++ "\" name=\"" ++
        (match t with
         | some s => s
         | none => "undefined") ++ "\" %\x7d\n", tx, he, Or.inl rfl, ?_⟩
      simp only [admonitionTemplate]
      rw [if_pos he]
    · refine ⟨"\x7b% admonition type=\"" ++
        (if chStr (trimChars (strChars ty)) = "attention" then "info"
         else chStr (trimChars (strChars ty))) ++ "\" name=\"" ++
        (match t with
         | some s => s
         | none => "undefined") ++ "\" %\x7d\n", tx ++ "\n",
        endsWithS_append_self tx "\n", Or.inr rfl, ?_⟩
      simp only [admonitionTemplate]
      rw [if_neg he]

theorem c6_admonition_rewrite_witness :
    startsWithS (admonitionTemplate "warning" (some "W") "Body\n")
        "\x7b% admonition type=\"warning\"" = true ∧
    (∃ (ty : List Char) (title : Option (List Char)) (text : List Char),
      strChars
          "\x7b% admonition type=\"tip\" name=\"T\" %\x7d\nB\n\x7b% /admonition %\x7d" =
        strChars (admonitionTemplate (chStr ty) (title.map chStr)
          (chStr text))) :=
  ⟨c6_admonition_rewrite.2.2.1 "warning" (some "W") "Body\n" (by decide),
   c6_admonition_rewrite.1 (strChars ":::tip T\nB\n:::")
     (strChars
       "\x7b% admonition type=\"tip\" name=\"T\" %\x7d\nB\n\x7b% /admonition %\x7d")
     14 (by decide)⟩

/-!
## C2: registry collisions
-/

/-- C2 counterexample: recording a second relocation for the same
original path raises no error at all — the registry entry is silently
overwritten with the new target (the source performs a plain property
assignment with no collision check, bin.ts:342/352/607/622). -/
theorem c2_counterexample :
    regFind (registerRename (registerRename [] "guides/start.mdx" "guides/start.md")
        "guides/start.mdx" "guides/other.md") "guides/start.mdx" =
      some "guides/other.md" := rfl

theorem regFind_cons (k0 v0 k : String) (tl : List (String × String)) :
    regFind ((k0, v0) :: tl) k = if k0 = k then some v0 else regFind tl k := by
  by_cases h : k0 = k
  · unfold regFind
    rw [List.find?_cons_of_pos _ (by simpa using h), if_pos h]
  · unfold regFind
    rw [List.find?_cons_of_neg _ (by simpa using h), if_neg h]

theorem regFind_jsAssign_self (reg : List (String × String)) (k v : String) :
    regFind (jsAssign reg k v) k = some v := by
  induction reg with
  | nil => simp [jsAssign, regFind_cons]
  | cons hd tl ih =>
    obtain ⟨k2, v2⟩ := hd
    by_cases h : k2 = k
    · simp [jsAssign, h, regFind_cons]
    · unfold jsAssign
      rw [if_neg h, regFind_cons, if_neg h]
      exact ih

theorem regFind_jsAssign_other (reg : List (String × String)) (k v k2 : String)
    (h : k2 ≠ k) : regFind (jsAssign reg k v) k2 = regFind reg k2 := by
  induction reg with
  | nil =>
    have h2 : ¬ k = k2 := fun he => h he.symm
    simp only [jsAssign]
    rw [regFind_cons, if_neg h2]
  | cons hd tl ih =>
    obtain ⟨k0, v0⟩ := hd
    by_cases h0 : k0 = k
    · subst h0
      unfold jsAssign
      rw [if_pos rfl, regFind_cons, regFind_cons,
        if_neg (fun he => h he.symm), if_neg (fun he => h he.symm)]
    · unfold jsAssign
      rw [if_neg h0, regFind_cons, regFind_cons]
      by_cases h02 : k0 = k2
      · rw [if_pos h02, if_pos h02]
      · rw [if_neg h02, if_neg h02]
        exact ih

/-- C2 as amended: a second relocation attempt for an already-recorded
original path silently overwrites the registry entry with the new
target — the last write wins, no error is raised, and entries under
every other key are untouched. -/
theorem c2_registry_overwrite (reg : Registry) (fp v : String) :
    regFind (registerRename reg fp v) (pathNormalize fp) = some v ∧
    (∀ k, k ≠ pathNormalize fp →
      regFind (registerRename reg fp v) k = regFind reg k) :=
  ⟨regFind_jsAssign_self reg (pathNormalize fp) v,
   fun k hk => regFind_jsAssign_other reg (pathNormalize fp) v k hk⟩

theorem c2_registry_overwrite_witness :
    regFind (registerRename [("a.md", "b.md")] "c.mdx" "c.md") "c.mdx" =
      some "c.md" ∧
    regFind (registerRename [("a.md", "b.md")] "c.mdx" "c.md") "a.md" =
      some "b.md" :=
  ⟨(c2_registry_overwrite [("a.md", "b.md")] "c.mdx" "c.md").1,
   (c2_registry_overwrite [("a.md", "b.md")] "c.mdx" "c.md").2 "a.md" (by decide)⟩

/-!
## C3: link rewriting through the registry
-/

/-- C3: in a document at `a/b.md`, an inline link to `../c.md#sec` is
rewritten, for any rename registry carrying the entry
`c.md → d/c.md`, to `../d/c.md#sec`: the registry target re-expressed
relative to the document's own directory, with the anchor fragment
re-appended unchanged. -/
theorem c3_link_rewrite (rest : Registry) :
    linkPass (("c.md", "d/c.md") :: rest) "a/b.md"
        "See [docs](../c.md#sec) now." =
      "See [docs](../d/c.md#sec) now." := rfl

/-!
## C4: plain page references through the registry
-/

/-- C4 counterexample: a node whose `page` is `guides/*` has no entry in
the (empty) registry, yet it is not left as-is — the transformer
rewrites it into a directory reference (bin.ts:217-223), dropping the
`page` field. -/
theorem c4_counterexample :
    transformSidebarItems [] "sidebars.yaml"
        [SItem.mk (some "G") none (some "guides/*") none none none] =
      .ok [SItem.mk (some "G") none none (some "guides") none none] ∧
    SItem.mk (some "G") none none (some "guides") none none ≠
      SItem.mk (some "G") none (some "guides/*") none none none :=
  ⟨rfl, by simp⟩

/-- C4 as amended: for a navigation node without a legacy `pages`
grouping whose `page` field neither ends in the `/*` wildcard nor in
`.page.yaml`: when the resolved path has a (truthy) registry entry, the
transformed node's `page` equals that entry's target expressed relative
to the tree file's own directory; when it has none, the node is left
as-is.  (Wildcard and structured-page-collection references are instead
rewritten to directory references or are fatal on a registry miss —
see `c4_counterexample` and C5.) -/
theorem c4_plain_page_rename (reg : Registry) (fp : String)
    (l g d : Option String) (its : Option (List SItem)) (p : String)
    (hw : endsWithS p "/*" = false) (hy : endsWithS p ".page.yaml" = false) :
    (∀ v, regTruthyVal reg (resolvedKey fp p) = some v →
      transformSidebarItems reg fp [SItem.mk l g (some p) d none its] =
        .ok [SItem.mk l g (some (pathRelative (pathDirname fp) v)) d none its]) ∧
    (regTruthyVal reg (resolvedKey fp p) = none →
      transformSidebarItems reg fp [SItem.mk l g (some p) d none its] =
        .ok [SItem.mk l g (some p) d none its]) := by
  constructor
  · intro v hv
    unfold transformSidebarItems
    simp [transformSidebarItemsF, mapMExcept, SItem.pages, SItem.page,
      SItem.label, SItem.group, SItem.directory, SItem.items, hw, hy, hv]
  · intro hv
    unfold transformSidebarItems
    simp [transformSidebarItemsF, mapMExcept, SItem.pages, SItem.page,
      SItem.label, SItem.group, SItem.directory, SItem.items, hw, hy, hv]

theorem c4_plain_page_rename_witness :
    transformSidebarItems [("guides/intro.mdx", "guides/intro.md")]
        "sidebars.yaml"
        [SItem.mk none none (some "guides/intro.mdx") none none none] =
      .ok [SItem.mk none none (some "guides/intro.md") none none none] :=
  (c4_plain_page_rename [("guides/intro.mdx", "guides/intro.md")]
    "sidebars.yaml" none none none none "guides/intro.mdx"
    (by decide) (by decide)).1 "guides/intro.md" rfl

/-!
## C5: missing collection entry is fatal
-/

/-- C5: a node whose `page` references a structured page collection (a
`.page.yaml` path, with or without the `/*` wildcard suffix) whose
resolved path has no truthy registry entry makes the transformer throw
`No renamed file found for <path>` — the whole call aborts with that
error, whatever items follow, instead of leaving the node unchanged. -/
theorem c5_missing_collection_fatal (reg : Registry) (fp : String)
    (l g d : Option String) (its : Option (List SItem))
    (rest : List SItem) (p : String)
    (hp : endsWithS p ".page.yaml/*" = true ∨
      (endsWithS p ".page.yaml" = true ∧ endsWithS p "/*" = false))
    (hmiss : regTruthyVal reg (pageYamlKey fp p) = none) :
    transformSidebarItems reg fp (SItem.mk l g (some p) d none its :: rest) =
      .error ("No renamed file found for " ++ pageYamlKey fp p) := by
  unfold transformSidebarItems
  rcases hp with hA | ⟨hB, hBw⟩
  · have hw : endsWithS p "/*" = true := by
      have h1 : strChars ".page.yaml/*" <:+ strChars p :=
        List.isSuffixOf_iff_suffix.mp hA
      have h2 : strChars "/*" <:+ strChars ".page.yaml/*" := by decide
      exact List.isSuffixOf_iff_suffix.mpr (h2.trans h1)
    simp [transformSidebarItemsF, mapMExcept, SItem.pages, SItem.page, hw, hA,
      hmiss]
  · simp [transformSidebarItemsF, mapMExcept, SItem.pages, SItem.page, hBw, hB,
      hmiss]

theorem c5_missing_collection_fatal_witness :
    transformSidebarItems [] "sidebars.yaml"
        [SItem.mk none none (some "apis/petstore.page.yaml") none none none] =
      .error "No renamed file found for apis/petstore.page.yaml" :=
  c5_missing_collection_fatal [] "sidebars.yaml" none none none none []
    "apis/petstore.page.yaml" (Or.inr ⟨by decide, by decide⟩) rfl

/-!
## C7: empty-frontmatter collapse
-/

/-- C7: when frontmatter processing of the (markup-rewritten) document
reports a change with an empty rewritten mapping — as for a document
whose only frontmatter key is `permission` — the caller splices the
whole frontmatter block out: the final document is exactly the text
after the matched block, with no empty delimiter pair emitted (the
no-op hypotheses keep the other passes from touching the text, so the
body is preserved verbatim). -/
theorem c7_empty_frontmatter_collapse (reg : Registry) (fp content : String)
    (n : Nat)
    (hA : admonitionPass content = content)
    (hE : embedPass content = content)
    (hF : fencePass content = content)
    (hfm : (processFrontMatter content fp).frontmatter = some [])
    (hch : (processFrontMatter content fp).changed = true)
    (hlen : (processFrontMatter content fp).len = some n)
    (hL : linkPass reg fp (jsSliceFrom content n) = jsSliceFrom content n) :
    migrateMarkdownContent reg fp content = jsSliceFrom content n := by
  unfold migrateMarkdownContent
  simp [hA, hE, hF, hfm, hch, hlen, hL]

theorem c7_empty_frontmatter_collapse_witness :
    migrateMarkdownContent [] "docs/a.md"
        "---\npermission: admin\n---\n\nBody text.\n" = "Body text.\n" :=
  c7_empty_frontmatter_collapse [] "docs/a.md"
    "---\npermission: admin\n---\n\nBody text.\n" 27
    rfl rfl rfl rfl rfl rfl rfl

/-!
## C8: the `exclude` key
-/

/-- C8 counterexample: a document whose frontmatter is exactly
`exclude: true` has its path appended to the ignore list and keeps the
`exclude` key, but `processFrontMatter` reports `changed = false` — the
`exclude` branch (bin.ts:726-728) does not mark the document as
changed, contrary to the claim. -/
theorem c8_counterexample :
    processFrontMatter "---\nexclude: true\n---\n\nBody\n" "docs/e.md" =
      { frontmatter := some [("exclude", JValue.bool true)], changed := false,
        len := some 23, rbacAdd := none, ignoreAdd := ["docs/e.md"] } := rfl

/-- C8 as amended: a truthy `exclude` frontmatter key appends the
document's path to the process-wide ignore list and is left in place in
the returned mapping, but it does not by itself trigger a `changed`
result — only the `permission` and `redirectFrom` rewrites set
`changed`, so absent those the document text is left alone. -/
theorem c8_exclude_behavior (content fp : String) (inner : List Char)
    (n : Nat) (fm : List (String × JValue)) (v : JValue)
    (hm : fmMatch (strChars content) = some (inner, n))
    (hfm : yamlLoadFlat (inner.flatMap
      (fun c => if c = '\t' then [' ', ' '] else [c])) = fm)
    (hperm : lookupJs fm "permission" = none)
    (hred : lookupJs fm "redirectFrom" = none)
    (hexc : lookupJs fm "exclude" = some v)
    (htr : jsTruthy v = true) :
    processFrontMatter content fp =
      { frontmatter := some fm, changed := false, len := some n,
        rbacAdd := none, ignoreAdd := [fp] } := by
  unfold processFrontMatter
  rw [hm]
  simp [hfm, hperm, hred, hexc, htr]

theorem c8_exclude_behavior_witness :
    processFrontMatter "---\nexclude: true\nlabel: Keep\n---\nText\n"
        "guides/x.md" =
      { frontmatter := some [("exclude", JValue.bool true),
          ("label", JValue.str "Keep")],
        changed := false, len := some 34, rbacAdd := none,
        ignoreAdd := ["guides/x.md"] } :=
  c8_exclude_behavior "---\nexclude: true\nlabel: Keep\n---\nText\n"
    "guides/x.md" (strChars "exclude: true\nlabel: Keep") 34
    [("exclude", JValue.bool true), ("label", JValue.str "Keep")]
    (JValue.bool true) rfl rfl rfl rfl rfl rfl

/-!
## C10: a malformed sidebar file stops the whole pass
-/

/-- C10: if a sidebar file's YAML load result is not a (non-null)
object, `migrateSidebars` returns at that file (bin.ts:175-177): every
later file of the listing is left untransformed, exactly as if the
listing had ended at the malformed file — while the same later file is
transformed and written when the malformed file is absent. -/
theorem c10_malformed_sidebar_stops_run :
    (∀ (reg : Registry) (pre : List (String × SidebarFile)) (f : String)
      (post : List (String × SidebarFile)),
      migrateSidebars reg (pre ++ (f, SidebarFile.nonObj) :: post) =
        migrateSidebars reg (pre ++ [(f, SidebarFile.nonObj)])) ∧
    migrateSidebars [] [("docs/sidebars.yaml", SidebarFile.nonObj),
        ("guides/sidebars.yaml",
          SidebarFile.arr [SItem.mk none none (some "g/*") none none none])] =
      ([], none) ∧
    migrateSidebars [] [("guides/sidebars.yaml",
        SidebarFile.arr [SItem.mk none none (some "g/*") none none none])] =
      ([("guides/sidebars.yaml",
          [SItem.mk none none none (some "g") none none])], none) := by
  refine ⟨?_, rfl, rfl⟩
  intro reg pre f post
  induction pre with
  | nil => rfl
  | cons hd tl ih =>
    obtain ⟨fp, sf⟩ := hd
    cases sf with
    | nonObj => simp [List.cons_append, migrateSidebars]
    | arr data =>
      simp only [List.cons_append, migrateSidebars]
      cases h : transformSidebarItems reg fp data with
      | error e => simp [h]
      | ok newData => simp [h, ih]
    | obj entries =>
      simp only [List.cons_append, migrateSidebars]
      cases h : (migrateSidebarObjEntries reg fp 0 entries).2 with
      | some e => simp [h]
      | none => simp [h, ih]

/-!
## C9: the structural equality checker

Auxiliary lemmas about JS property lookup on key/value lists, and the
equivalence of `dequal` with the specification relation `SpecRel` on
well-formed (duplicate-key-free) values.
-/

theorem lookupJs_cons (k0 : String) (v0 : JValue)
    (fs : List (String × JValue)) (k : String) :
    lookupJs ((k0, v0) :: fs) k = if k0 = k then some v0 else lookupJs fs k := by
  by_cases h : k0 = k
  · unfold lookupJs
    rw [List.find?_cons_of_pos _ (by simpa using h), if_pos h]
  · unfold lookupJs
    rw [List.find?_cons_of_neg _ (by simpa using h), if_neg h]

theorem lookupJs_isSome_iff (fs : List (String × JValue)) (k : String) :
    (lookupJs fs k).isSome ↔ k ∈ fs.map Prod.fst := by
  induction fs with
  | nil => simp [lookupJs, List.find?]
  | cons hd tl ih =>
    obtain ⟨k0, v0⟩ := hd
    by_cases h : k0 = k
    · simp [lookupJs_cons, h]
    · have h2 : ¬ k = k0 := fun he => h he.symm
      simp [lookupJs_cons, h, h2, ih]

theorem lookupJs_eq_some_mem {fs : List (String × JValue)} {k : String}
    {v : JValue} (h : lookupJs fs k = some v) : (k, v) ∈ fs := by
  induction fs with
  | nil => simp [lookupJs, List.find?] at h
  | cons hd tl ih =>
    obtain ⟨k0, v0⟩ := hd
    rw [lookupJs_cons] at h
    by_cases h0 : k0 = k
    · rw [if_pos h0] at h
      injection h with hv
      subst hv; subst h0
      exact List.mem_cons_self _ _
    · rw [if_neg h0] at h
      exact List.mem_cons_of_mem _ (ih h)

theorem lookupJs_of_mem_nodup {fs : List (String × JValue)} {k : String}
    {v : JValue} (hmem : (k, v) ∈ fs) (hn : (fs.map Prod.fst).Nodup) :
    lookupJs fs k = some v := by
  induction fs with
  | nil => cases hmem
  | cons hd tl ih =>
    obtain ⟨k0, v0⟩ := hd
    rw [lookupJs_cons]
    rcases List.mem_cons.mp hmem with he | hm
    · injection he with h1 h2
      subst h1; subst h2
      rw [if_pos rfl]
    · have hn2 : k0 ∉ tl.map Prod.fst ∧ (tl.map Prod.fst).Nodup := by
        simpa only [List.map_cons, List.nodup_cons] using hn
      have hk : k0 ≠ k := by
        intro he
        subst he
        exact hn2.1 (by simpa using List.mem_map_of_mem Prod.fst hm)
      rw [if_neg hk]
      exact ih hm hn2.2

theorem mem_of_subset_of_length {ks ls : List String}
    (hks : ks.Nodup) (hls : ls.Nodup)
    (hsub : ∀ k ∈ ks, k ∈ ls) (hlen : ls.length = ks.length) :
    ∀ k ∈ ls, k ∈ ks := by
  have h1 : ks.toFinset ⊆ ls.toFinset := by
    intro x hx
    exact List.mem_toFinset.mpr (hsub x (List.mem_toFinset.mp hx))
  have h2 : ls.toFinset.card ≤ ks.toFinset.card := by
    rw [List.toFinset_card_of_nodup hks, List.toFinset_card_of_nodup hls]
    omega
  have h3 : ks.toFinset = ls.toFinset := Finset.eq_of_subset_of_card_le h1 h2
  intro k hk
  exact List.mem_toFinset.mp (h3 ▸ List.mem_toFinset.mpr hk)

theorem isNanJ_eq_nan {a : JValue} (h : isNanJ a = true) : a = .nan := by
  cases a <;> simp [isNanJ] at h ⊢

/-- Unfolding of `dequalF` at positive fuel. -/
theorem dequalF_succ (f : Nat) (a b : JValue) :
    dequalF (f + 1) a b =
      if jsEq a b then true
      else
        match a, b with
        | .arr xs, .arr ys =>
          (xs.length == ys.length) && (xs.zip ys).all (fun p => dequalF f p.1 p.2)
        | .obj fs, .obj gs =>
          (fs.all (fun kv =>
            match lookupJs gs kv.1 with
            | some w => dequalF f kv.2 w
            | none => false)) && (gs.length == fs.length)
        | a2, b2 => isNanJ a2 && isNanJ b2 := rfl

theorem nanCheck_iff {a b : JValue} (hjs : ¬ jsEq a b = true)
    (harr : ∀ xs ys, ¬(a = .arr xs ∧ b = .arr ys))
    (hobj : ∀ fs gs, ¬(a = .obj fs ∧ b = .obj gs)) :
    ((isNanJ a && isNanJ b) = true ↔ SpecRel a b) := by
  constructor
  · intro hB
    rw [Bool.and_eq_true] at hB
    rw [isNanJ_eq_nan hB.1, isNanJ_eq_nan hB.2]
    exact SpecRel.nan
  · intro hS
    cases hS with
    | prim hp => exact absurd hp hjs
    | nan => simp [isNanJ]
    | arr hlen helem => exact absurd ⟨rfl, rfl⟩ (harr _ _)
    | obj hkeys hvals => exact absurd ⟨rfl, rfl⟩ (hobj _ _)

theorem dequalF_arr_case (f : Nat)
    (ih : ∀ a b, sizeOf a < f → WfJ a → WfJ b →
      (dequalF f a b = true ↔ SpecRel a b))
    (xs ys : List JValue) (hsz : sizeOf (JValue.arr xs) < f + 1)
    (ha : WfJ (.arr xs)) (hb : WfJ (.arr ys)) :
    ((xs.length == ys.length) &&
        (xs.zip ys).all (fun p => dequalF f p.1 p.2)) = true
      ↔ SpecRel (.arr xs) (.arr ys) := by
  have hxs : sizeOf xs < f := by
    have h0 : sizeOf (JValue.arr xs) = 1 + sizeOf xs := by simp
    omega
  constructor
  · intro hB
    rw [Bool.and_eq_true] at hB
    obtain ⟨hlen, hall⟩ := hB
    have hlen2 : xs.length = ys.length := by simpa using hlen
    refine SpecRel.arr hlen2 (fun i hx hy => ?_)
    have hzlen : i < (xs.zip ys).length := by
      rw [List.length_zip]; omega
    have hmem : (xs.get ⟨i, hx⟩, ys.get ⟨i, hy⟩) ∈ xs.zip ys := by
      have hg : (xs.zip ys).get ⟨i, hzlen⟩ =
          (xs.get ⟨i, hx⟩, ys.get ⟨i, hy⟩) := by
        simp [List.get_eq_getElem, List.getElem_zip]
      exact hg ▸ List.get_mem _ _ _
    have hd := List.all_eq_true.mp hall _ hmem
    have hsx : sizeOf (xs.get ⟨i, hx⟩) < f := by
      have h1 : sizeOf (xs.get ⟨i, hx⟩) < sizeOf xs :=
        List.sizeOf_lt_of_mem (List.get_mem _ _ _)
      omega
    have hwx : WfJ (xs.get ⟨i, hx⟩) := by
      cases ha with
      | arr hwf => exact hwf _ (List.get_mem _ _ _)
    have hwy : WfJ (ys.get ⟨i, hy⟩) := by
      cases hb with
      | arr hwf => exact hwf _ (List.get_mem _ _ _)
    exact (ih _ _ hsx hwx hwy).mp hd
  · intro hS
    cases hS with
    | prim hp => simp [jsEq] at hp
    | arr hlen helem =>
      rw [Bool.and_eq_true]
      refine ⟨by simpa using hlen, List.all_eq_true.mpr (fun p hp => ?_)⟩
      obtain ⟨i, hEq⟩ := List.mem_iff_get.mp hp
      have hzl : i.val < (xs.zip ys).length := i.isLt
      have hix : i.val < xs.length :=
        lt_of_lt_of_le hzl (by rw [List.length_zip]; exact Nat.min_le_left _ _)
      have hiy : i.val < ys.length :=
        lt_of_lt_of_le hzl (by rw [List.length_zip]; exact Nat.min_le_right _ _)
      have hg : (xs.zip ys).get i = (xs.get ⟨i.val, hix⟩, ys.get ⟨i.val, hiy⟩) := by
        simp [List.get_eq_getElem, List.getElem_zip]
      rw [← hEq, hg]
      have hsx : sizeOf (xs.get ⟨i.val, hix⟩) < f := by
        have h1 : sizeOf (xs.get ⟨i.val, hix⟩) < sizeOf xs :=
          List.sizeOf_lt_of_mem (List.get_mem _ _ _)
        omega
      have hwx : WfJ (xs.get ⟨i.val, hix⟩) := by
        cases ha with
        | arr hwf => exact hwf _ (List.get_mem _ _ _)
      have hwy : WfJ (ys.get ⟨i.val, hiy⟩) := by
        cases hb with
        | arr hwf => exact hwf _ (List.get_mem _ _ _)
      exact (ih _ _ hsx hwx hwy).mpr (helem i.val hix hiy)

theorem dequalF_obj_case (f : Nat)
    (ih : ∀ a b, sizeOf a < f → WfJ a → WfJ b →
      (dequalF f a b = true ↔ SpecRel a b))
    (fs gs : List (String × JValue)) (hsz : sizeOf (JValue.obj fs) < f + 1)
    (ha : WfJ (.obj fs)) (hb : WfJ (.obj gs)) :
    ((fs.all (fun kv =>
        match lookupJs gs kv.1 with
        | some w => dequalF f kv.2 w
        | none => false)) && (gs.length == fs.length)) = true
      ↔ SpecRel (.obj fs) (.obj gs) := by
  obtain ⟨hnf, hwf⟩ : (fs.map Prod.fst).Nodup ∧ (∀ kv ∈ fs, WfJ kv.2) := by
    cases ha with
    | obj h1 h2 => exact ⟨h1, h2⟩
  obtain ⟨hng, hwg⟩ : (gs.map Prod.fst).Nodup ∧ (∀ kv ∈ gs, WfJ kv.2) := by
    cases hb with
    | obj h1 h2 => exact ⟨h1, h2⟩
  have hszv : ∀ kv ∈ fs, sizeOf kv.2 < f := by
    intro kv hkv
    have h0 : sizeOf (JValue.obj fs) = 1 + sizeOf fs := by simp
    have h1 : sizeOf kv < sizeOf fs := List.sizeOf_lt_of_mem hkv
    have h2 : sizeOf kv.2 < sizeOf kv := by
      obtain ⟨k1, v1⟩ := kv
      simp
    omega
  constructor
  · intro hB
    rw [Bool.and_eq_true] at hB
    obtain ⟨hall, hlen⟩ := hB
    have hlen2 : gs.length = fs.length := by simpa using hlen
    have hfind : ∀ kv ∈ fs, ∃ w, lookupJs gs kv.1 = some w ∧
        dequalF f kv.2 w = true := by
      intro kv hkv
      have hkv2 := List.all_eq_true.mp hall _ hkv
      cases hg : lookupJs gs kv.1 with
      | none => rw [hg] at hkv2; cases hkv2
      | some w => rw [hg] at hkv2; exact ⟨w, rfl, hkv2⟩
    have hsub : ∀ k ∈ fs.map Prod.fst, k ∈ gs.map Prod.fst := by
      intro k hk
      obtain ⟨kv, hkv, hke⟩ := List.mem_map.mp hk
      obtain ⟨w, hw, _⟩ := hfind kv hkv
      subst hke
      exact (lookupJs_isSome_iff gs kv.1).mp (by simp [hw])
    refine SpecRel.obj (fun k => ?_) (fun k v w hv hw => ?_)
    · rw [lookupJs_isSome_iff, lookupJs_isSome_iff]
      constructor
      · exact hsub k
      · intro hk
        refine mem_of_subset_of_length hnf hng hsub ?_ k hk
        simp only [List.length_map]
        exact hlen2
    · have hmemv : (k, v) ∈ fs := lookupJs_eq_some_mem hv
      obtain ⟨w2, hw2, hdq⟩ := hfind _ hmemv
      rw [hw] at hw2
      injection hw2 with hw3
      subst hw3
      have hwv : WfJ v := hwf _ hmemv
      have hww : WfJ w := hwg _ (lookupJs_eq_some_mem hw)
      exact (ih _ _ (hszv _ hmemv) hwv hww).mp hdq
  · intro hS
    cases hS with
    | prim hp => simp [jsEq] at hp
    | obj hkeys hvals =>
      rw [Bool.and_eq_true]
      constructor
      · refine List.all_eq_true.mpr (fun kv hkv => ?_)
        have hvf : lookupJs fs kv.1 = some kv.2 := by
          obtain ⟨k1, v1⟩ := kv
          exact lookupJs_of_mem_nodup hkv hnf
        have hgs : (lookupJs gs kv.1).isSome :=
          (hkeys kv.1).mp (by simp [hvf])
        obtain ⟨w, hw⟩ := Option.isSome_iff_exists.mp hgs
        rw [hw]
        have hwv : WfJ kv.2 := hwf _ hkv
        have hww : WfJ w := hwg _ (lookupJs_eq_some_mem hw)
        exact (ih _ _ (hszv _ hkv) hwv hww).mpr (hvals kv.1 kv.2 w hvf hw)
      · have hsub : ∀ k ∈ fs.map Prod.fst, k ∈ gs.map Prod.fst := by
          intro k hk
          rw [← lookupJs_isSome_iff]
          exact (hkeys k).mp ((lookupJs_isSome_iff fs k).mpr hk)
        have hsub2 : ∀ k ∈ gs.map Prod.fst, k ∈ fs.map Prod.fst := by
          intro k hk
          rw [← lookupJs_isSome_iff]
          exact (hkeys k).mpr ((lookupJs_isSome_iff gs k).mpr hk)
        have hfin : (fs.map Prod.fst).toFinset = (gs.map Prod.fst).toFinset := by
          apply Finset.Subset.antisymm
          · intro x hx
            exact List.mem_toFinset.mpr (hsub x (List.mem_toFinset.mp hx))
          · intro x hx
            exact List.mem_toFinset.mpr (hsub2 x (List.mem_toFinset.mp hx))
        have hlen3 : (fs.map Prod.fst).length = (gs.map Prod.fst).length := by
          rw [← List.toFinset_card_of_nodup hnf,
            ← List.toFinset_card_of_nodup hng, hfin]
        simp only [List.length_map] at hlen3
        simpa using hlen3.symm

theorem dequalF_iff_specRel :
    ∀ (fuel : Nat) (a b : JValue), sizeOf a < fuel → WfJ a → WfJ b →
      (dequalF fuel a b = true ↔ SpecRel a b) := by
  intro fuel
  induction fuel with
  | zero => intro a b h; exact absurd h (Nat.not_lt_zero _)
  | succ f ih =>
    intro a b hsz ha hb
    rw [dequalF_succ]
    by_cases hjs : jsEq a b = true
    · rw [if_pos hjs]
      exact ⟨fun _ => SpecRel.prim hjs, fun _ => rfl⟩
    · rw [if_neg hjs]
      cases a <;> cases b <;>
        first
        | exact dequalF_arr_case f ih _ _ hsz ha hb
        | exact dequalF_obj_case f ih _ _ hsz ha hb
        | exact nanCheck_iff hjs (by rintro x y ⟨h1, h2⟩; simp_all)
            (by rintro x y ⟨h1, h2⟩; simp_all)

/-- C9: on duplicate-key-free values, `dequal` returns true exactly when
the two values are related by the specification's structural equality:
sequences of equal length with pairwise-equal elements in order,
mappings with the same key set and pairwise-equal values regardless of
key order (extra or missing keys on either side break equality), and
primitives under identity equality except that two not-a-number values
are considered equal to each other. -/
theorem c9_dequal_spec (a b : JValue) (ha : WfJ a) (hb : WfJ b) :
    dequal a b = true ↔ SpecRel a b :=
  dequalF_iff_specRel (sizeOf a + 1) a b (Nat.lt_succ_self _) ha hb

theorem c9_dequal_spec_witness :
    dequal (JValue.obj [("a", JValue.num 1), ("b", JValue.nan)])
        (JValue.obj [("b", JValue.nan), ("a", JValue.num 1)]) = true ∧
    SpecRel (JValue.obj [("a", JValue.num 1), ("b", JValue.nan)])
        (JValue.obj [("b", JValue.nan), ("a", JValue.num 1)]) := by
  have hwa : WfJ (JValue.obj [("a", JValue.num 1), ("b", JValue.nan)]) := by
    refine WfJ.obj (by decide) ?_
    intro kv hkv
    rcases List.mem_cons.mp hkv with h | h
    · subst h; exact WfJ.num 1
    · rcases List.mem_cons.mp h with h2 | h2
      · subst h2; exact WfJ.nan
      · cases h2
  have hwb : WfJ (JValue.obj [("b", JValue.nan), ("a", JValue.num 1)]) := by
    refine WfJ.obj (by decide) ?_
    intro kv hkv
    rcases List.mem_cons.mp hkv with h | h
    · subst h; exact WfJ.nan
    · rcases List.mem_cons.mp h with h2 | h2
      · subst h2; exact WfJ.num 1
      · cases h2
  have hd : dequal (JValue.obj [("a", JValue.num 1), ("b", JValue.nan)])
      (JValue.obj [("b", JValue.nan), ("a", JValue.num 1)]) = true := by decide
  exact ⟨hd, (c9_dequal_spec _ _ hwa hwb).mp hd⟩

end Migrate
